import Mathlib

/-!
Verification of the analytics core of the market-seasonality-explorer
repository: the mock-series generator and week/month aggregators of
`src/lib/market-utils.ts`, and the seasonal-pattern / anomaly detectors of
`src/components/PatternAnalysis.tsx`.

Modelling conventions.
* ISO date strings (`'YYYY-MM-DD'`) and `dayjs` objects are modelled by their
  calendar value: a `Date` record of year / month (1-12) / day-of-month.
  The `dayjs` accessors are field reads: `.year()` is `year`, `.month()` is
  `month - 1` (dayjs months are 0-based), `.date()` is `day`, `.day()` is the
  day of week computed from the civil calendar, and `.week()` follows the
  `weekOfYear` plugin with the default `en` locale (week starts Sunday,
  `yearStart = 1`).
* JS numbers are modelled as exact rationals `ℚ`.  The only square root in
  the sources, `Math.sqrt` of a variance, occurs solely inside comparisons
  `(x - mean)/sqrt(var) > c` and `x > mean + k*sqrt(var)` for positive
  numeric constants; those comparisons are encoded exactly by their squared
  forms (see `zScoreGt`, `exceedsMeanPlusKSd`).
* JS objects used as string-keyed dictionaries keep keys in insertion order
  (first-encounter order); they are modelled by association lists to which a
  fresh key is appended at the end, matching `Object.entries` enumeration.
  A `Record` keyed by the integers 0..6 enumerates its keys in ascending
  numeric order per the ECMAScript own-property-key order.
-/

/-! ### Calendar dates -/

/-- A calendar date: the value of an ISO `YYYY-MM-DD` string. `month` is
1-based (January = 1). -/
structure Date where
  year : Int
  month : Int
  day : Int
deriving DecidableEq, Repr

/-- Days since 1970-01-01 of the civil date `y-m-d` (Howard Hinnant's
`days_from_civil`). The C++ original truncates the one possibly-negative
division after shifting the numerator so that truncation agrees with
flooring; Lean's `/` on `Int` is already floor-like Euclidean division, so
the shift is not needed and all quotients here coincide with the C++ ones. -/
def daysFromCivil (y m d : Int) : Int :=
  let y' := if m ≤ 2 then y - 1 else y
  let era := y' / 400
  let yoe := y' - era * 400
  let mp := (m + 9) % 12
  let doy := (153 * mp + 2) / 5 + d - 1
  let doe := yoe * 365 + yoe / 4 - yoe / 100 + doy
  era * 146097 + doe - 719468

/-- `dayjs(date).valueOf()` up to the constant factor 86400000: the date's
epoch-day number.  Comparisons of `valueOf()` timestamps of midnight dates
are comparisons of this number. -/
def Date.toDays (dt : Date) : Int :=
  daysFromCivil dt.year dt.month dt.day

/-- `dayjs(date).day()`: day of week, 0 = Sunday … 6 = Saturday
(1970-01-01 was a Thursday). -/
def Date.dayOfWeek (dt : Date) : Int :=
  (dt.toDays + 4) % 7

/-- Epoch-day number of the Sunday on or before the given epoch day. -/
def startOfWeekDays (days : Int) : Int :=
  days - (days + 4) % 7

/-- `dayjs(date).week()` with the `weekOfYear` plugin, default `en` locale
(`yearStart` 1, weeks starting Sunday).  Late-December dates whose week runs
into the next year are reported as week 1; otherwise the week number is
`Math.ceil` of the (fractional) number of weeks between the date and the
start of the week containing January 1.  `isBefore` between the next
January 1 at midnight and the end of the current week (Saturday
23:59:59.999) holds exactly when January 1 is on or before that Saturday. -/
def Date.week (dt : Date) : Int :=
  if dt.month = 12 ∧ 25 < dt.day then
    let endOfWeekDays := dt.toDays + (6 - (dt.toDays + 4) % 7)
    let nextYearStart := daysFromCivil (dt.year + 1) 1 1
    if nextYearStart ≤ endOfWeekDays then 1
    else
      let yearStartWeek := startOfWeekDays (daysFromCivil dt.year 1 1)
      let diffDays := dt.toDays - yearStartWeek
      if diffDays < 0 then 1 else (diffDays + 6) / 7
  else
    let yearStartWeek := startOfWeekDays (daysFromCivil dt.year 1 1)
    let diffDays := dt.toDays - yearStartWeek
    if diffDays < 0 then 1 else (diffDays + 6) / 7

/-- Gregorian leap year. -/
def isLeapYear (y : Int) : Bool :=
  (decide (y % 4 = 0) && !decide (y % 100 = 0)) || decide (y % 400 = 0)

/-- Number of days of month `m` (1-12) of year `y`. -/
def daysInMonth (y m : Int) : Int :=
  if m = 2 then (if isLeapYear y then 29 else 28)
  else if m = 4 ∨ m = 6 ∨ m = 9 ∨ m = 11 then 30
  else 31

/-- A genuine calendar date, as produced by parsing a well-formed ISO
date string. -/
def Date.Valid (dt : Date) : Prop :=
  1 ≤ dt.month ∧ dt.month ≤ 12 ∧ 1 ≤ dt.day ∧ dt.day ≤ daysInMonth dt.year dt.month

instance (dt : Date) : Decidable dt.Valid := by
  unfold Date.Valid; infer_instance

/-! ### The data model (`src/types/market.ts`) -/

inductive VolatilityLevel | low | medium | high
deriving DecidableEq, Repr

inductive Performance | positive | negative | neutral
deriving DecidableEq, Repr

/-- `MarketData` of `src/types/market.ts`; the ISO date string is modelled
by its calendar value. -/
structure MarketData where
  date : Date
  volatilityLevel : VolatilityLevel
  volume : ℚ
  performance : Performance
  priceChange : ℚ
  liquidity : ℚ
deriving DecidableEq, Repr

/-- `AggregatedData` of `src/types/market.ts`.  `startDate`/`endDate` are
`new Date(ms)` values, kept as epoch-day numbers.  The `avgVolatility` /
`avgPerformance` fields are `Option`s because the JS mode computation
(`reduce` without an initial value) is undefined on an empty bucket; on the
non-empty buckets the aggregators build they are always `some`. -/
structure AggregatedData where
  period : String
  startDate : Int
  endDate : Int
  avgVolatility : Option VolatilityLevel
  totalVolume : ℚ
  avgPerformance : Option Performance
  avgPriceChange : ℚ
  avgLiquidity : ℚ
deriving DecidableEq, Repr

/-! ### `market-utils.ts`: aggregation -/

/-- One step of the `reduce` in `getMostFrequentVolatility` /
`getMostFrequentPerformance`: bump the count of key `k`, first inserting
it at the end when absent (JS objects keep string keys in insertion
order). -/
def bumpCount {κ : Type} [DecidableEq κ] (acc : List (κ × Nat)) (k : κ) :
    List (κ × Nat) :=
  if acc.any fun p => decide (p.1 = k) then
    acc.map fun p => if p.1 = k then (p.1, p.2 + 1) else p
  else acc ++ [(k, 1)]

/-- The counts object of `getMostFrequent*`, as `Object.entries` returns
it: keys in first-encounter order. -/
def countsOf {κ : Type} [DecidableEq κ] (l : List κ) : List (κ × Nat) :=
  l.foldl bumpCount []

/-- `Object.entries(counts).reduce((a, b) => counts[a[0]] > counts[b[0]] ? a : b)[0]`:
`counts[a[0]]` is `a.2` since `a` is an entry of `counts`.  `reduce`
without an initial value throws on an empty array, modelled by `none`. -/
def pickMostFrequent {κ : Type} (entries : List (κ × Nat)) : Option κ :=
  match entries with
  | [] => none
  | e :: es => some (es.foldl (fun a b => if a.2 > b.2 then a else b) e).1

/-- `getMostFrequentVolatility` of `market-utils.ts`. -/
def getMostFrequentVolatility (data : List MarketData) : Option VolatilityLevel :=
  pickMostFrequent (countsOf (data.map (·.volatilityLevel)))

/-- `getMostFrequentPerformance` of `market-utils.ts`. -/
def getMostFrequentPerformance (data : List MarketData) : Option Performance :=
  pickMostFrequent (countsOf (data.map (·.performance)))

/-- `groups[key].push(item)`, creating `groups[key]` when absent: a fresh
string key is appended at the end (insertion order), an existing bucket
grows at its end. -/
def addToGroups (gs : List (String × List MarketData)) (key : String)
    (item : MarketData) : List (String × List MarketData) :=
  if gs.any fun p => decide (p.1 = key) then
    gs.map fun p => if p.1 = key then (p.1, p.2 ++ [item]) else p
  else gs ++ [(key, [item])]

/-- The week key `` `${year}-W${date.week()}` ``. -/
def mkWeekKey (year w : Int) : String :=
  toString year ++ "-W" ++ toString w

/-- `String(x).padStart(2, '0')`. -/
def pad2 (n : Int) : String :=
  if 0 ≤ n ∧ n < 10 then "0" ++ toString n else toString n

/-- The month key `` `${year}-${String(date.month() + 1).padStart(2, '0')}` ``
(`date.month() + 1` is the 1-based month). -/
def mkMonthKey (year m : Int) : String :=
  toString year ++ "-" ++ pad2 m

/-- The `weekGroups` accumulator of `aggregateDataByWeek`: points whose
`year()` differs from the target year are discarded, the rest are grouped
by week key. -/
def weekGroups (data : List MarketData) (year : Int) :
    List (String × List MarketData) :=
  data.foldl
    (fun gs item =>
      if item.date.year ≠ year then gs
      else addToGroups gs (mkWeekKey year item.date.week) item)
    []

/-- The `monthGroups` accumulator of `aggregateDataByMonth`. -/
def monthGroups (data : List MarketData) (year : Int) :
    List (String × List MarketData) :=
  data.foldl
    (fun gs item =>
      if item.date.year ≠ year then gs
      else addToGroups gs (mkMonthKey year item.date.month) item)
    []

/-- `Math.min(...timestamps)`: on the empty spread JS yields `Infinity`;
buckets are never empty (see `weekGroups_buckets_ne_nil`), so the value on
`[]` is immaterial. -/
def listMinD (l : List Int) : Int :=
  match l with
  | [] => 0
  | x :: xs => xs.foldl min x

/-- `Math.max(...timestamps)`. -/
def listMaxD (l : List Int) : Int :=
  match l with
  | [] => 0
  | x :: xs => xs.foldl max x

/-- The record built from one `[period, bucket]` entry in
`aggregateDataByWeek` / `aggregateDataByMonth` (both build the identical
record). -/
def mkAggregated (p : String × List MarketData) : AggregatedData :=
  let bucket := p.2
  let timestamps := bucket.map (·.date.toDays)
  { period := p.1
    startDate := listMinD timestamps
    endDate := listMaxD timestamps
    avgVolatility := getMostFrequentVolatility bucket
    totalVolume := (bucket.map (·.volume)).sum
    avgPerformance := getMostFrequentPerformance bucket
    avgPriceChange := (bucket.map (·.priceChange)).sum / (bucket.length : ℚ)
    avgLiquidity := (bucket.map (·.liquidity)).sum / (bucket.length : ℚ) }

/-- `aggregateDataByWeek` of `market-utils.ts`. -/
def aggregateDataByWeek (data : List MarketData) (year : Int) :
    List AggregatedData :=
  (weekGroups data year).map mkAggregated

/-- `aggregateDataByMonth` of `market-utils.ts`. -/
def aggregateDataByMonth (data : List MarketData) (year : Int) :
    List AggregatedData :=
  (monthGroups data year).map mkAggregated

/-! ### `market-utils.ts`: the mock-series generator -/

/-- The JS update `random -= weights[i]`: `random` is held as `Option ℚ`
because once the weights array is exhausted `weights[i]` is `undefined` and
the subtraction produces `NaN` (modelled `none`). -/
def jsSubtract (random w : Option ℚ) : Option ℚ :=
  match random, w with
  | some r, some v => some (r - v)
  | _, _ => none

/-- The JS test `random <= 0`: `NaN <= 0` is `false`. -/
def jsLeZero (random : Option ℚ) : Bool :=
  match random with
  | some v => decide (v ≤ 0)
  | none => false

/-- The `for` loop of `weightedRandom`. -/
def weightedRandomLoop {α : Type} (items : List α) (ws : List ℚ)
    (random : Option ℚ) : Option α :=
  match items with
  | [] => none
  | x :: xs =>
    let r' := jsSubtract random ws.head?
    if jsLeZero r' then some x else weightedRandomLoop xs ws.tail r'

/-- `weightedRandom` of `market-utils.ts`.  `rand` is the `Math.random()`
draw; the fall-through `return items[items.length - 1]` yields `undefined`
(`none`) only when `items` is empty. -/
def weightedRandom {α : Type} (items : List α) (weights : List ℚ)
    (rand : ℚ) : Option α :=
  let totalWeight := weights.foldl (· + ·) 0
  match weightedRandomLoop items weights (some (rand * totalWeight)) with
  | some x => some x
  | none => items.getLast?

/-- Lines 22-29 of `generateMockMarketData`: the volatility weights chosen
for the day under `current`.  `dayOfMonth > 25` is the `isMonthEnd` test and
`[1, 4, 7, 10].includes(current.month() + 1)` the `isEarningsSeason` test
(`current.month() + 1` is the 1-based month). -/
def volatilityWeightsFor (dt : Date) : List ℚ :=
  let dayOfMonth := dt.day
  let isMonthEnd := 25 < dayOfMonth
  let isEarningsSeason := dt.month = 1 ∨ dt.month = 4 ∨ dt.month = 7 ∨ dt.month = 10
  if isMonthEnd ∨ isEarningsSeason then [0.2, 0.4, 0.4] else [0.5, 0.3, 0.2]

/-- The five `Math.random()` draws one loop iteration of
`generateMockMarketData` consumes. -/
structure Draws where
  vol : ℚ
  perf : ℚ
  volume : ℚ
  price : ℚ
  liq : ℚ

/-- The `MarketData` record pushed for a weekday `current`
(lines 31-41 of `market-utils.ts`).  The two `getD` fall-backs are
unreachable: `weightedRandom` on a non-empty literal always yields an
element (theorem `C10_weightedRandom_total`), and `Math.floor(r*3)` for a
`Math.random()` draw indexes inside the three-element array. -/
def mkDay (dt : Date) (dr : Draws) : MarketData :=
  { date := dt
    volatilityLevel :=
      (weightedRandom [VolatilityLevel.low, .medium, .high]
        (volatilityWeightsFor dt) dr.vol).getD .low
    volume := ((dr.volume * 1000000).floor : ℚ) + 100000
    performance :=
      [Performance.positive, .negative, .neutral].getD
        (dr.perf * 3).floor.toNat .positive
    priceChange := (dr.price - 0.5) * 10
    liquidity := ((dr.liq * 100).floor : ℚ) + 1 }

/-- The loop state of `generateMockMarketData`: the `current` dayjs value
and the `data` array (held most-recent-first). -/
structure GenState where
  current : Date
  dataRev : List MarketData

/-- The `while` guard `current.isBefore(end) || current.isSame(end, 'day')`. -/
def genGuard (endD : Date) (st : GenState) : Bool :=
  decide (st.current.toDays ≤ endD.toDays)

/-- One iteration of the `while` body of `generateMockMarketData`.  On a
weekday a record is pushed.  The final statement `current.add(1, 'day')`
calls an immutable dayjs API and discards the returned instance, so
`current` is unchanged by the iteration. -/
def genStep (dr : Draws) (st : GenState) : GenState :=
  let dayOfWeek := st.current.dayOfWeek
  let isWeekend := dayOfWeek = 0 ∨ dayOfWeek = 6
  let st' :=
    if isWeekend then st
    else { st with dataRev := mkDay st.current dr :: st.dataRev }
  { st' with current := st'.current }

/-- The state after `n` iterations of the `generateMockMarketData` loop,
started at `startDate`, with `ds` the stream of random draws. -/
def genIter (ds : Nat → Draws) (startD : Date) : Nat → GenState
  | 0 => ⟨startD, []⟩
  | n + 1 => genStep (ds n) (genIter ds startD n)

/-! ### `PatternAnalysis.tsx`: seasonal patterns -/

inductive PatternType | bullish | bearish | volatile | stable
deriving DecidableEq, Repr

/-- `SeasonalPattern` of `PatternAnalysis.tsx`.  The `description` string is
presentational only (it embeds `toFixed` float formatting) and is not
modelled. -/
structure SeasonalPattern where
  type : PatternType
  period : String
  strength : ℚ
  frequency : Nat
deriving DecidableEq, Repr

/-- The `monthlyData` accumulator: points grouped by
`dayjs(data.date).format('MM')` (the zero-padded 1-based month), years
pooled.  Keys like `"01"` are non-index string keys, kept in insertion
order. -/
def monthlyData (md : List MarketData) : List (String × List MarketData) :=
  md.foldl (fun acc d => addToGroups acc (pad2 d.date.month) d) []

/-- The body of the `Object.entries(monthlyData).forEach` loop of
`seasonalPatterns` (lines 46-72): the early `return` on a thin month group
keeps `patterns` unchanged, otherwise up to two patterns are pushed. -/
def monthlyStep (patterns : List SeasonalPattern)
    (p : String × List MarketData) : List SeasonalPattern :=
  let data := p.2
  if data.length < 3 then patterns
  else
    let avgChange := (data.map (·.priceChange)).sum / (data.length : ℚ)
    let volatilityCount :=
      (data.filter fun d => decide (d.volatilityLevel = .high)).length
    let volatilityRatio := (volatilityCount : ℚ) / (data.length : ℚ)
    let patterns1 :=
      if 2 < |avgChange| then
        patterns ++
          [{ type := if 0 < avgChange then .bullish else .bearish
             period := "Month " ++ p.1
             strength := min 100 (|avgChange| * 20)
             frequency := data.length }]
      else patterns
    if 0.6 < volatilityRatio then
      patterns1 ++
        [{ type := .volatile
           period := "Month " ++ p.1
           strength := volatilityRatio * 100
           frequency := data.length }]
    else patterns1

/-- The month-of-year pass of `seasonalPatterns`. -/
def monthlyPass (md : List MarketData) : List SeasonalPattern :=
  (monthlyData md).foldl monthlyStep []

def dayNames : List String :=
  ["Sunday", "Monday", "Tuesday", "Wednesday", "Thursday", "Friday",
   "Saturday"]

/-- The `weeklyData` record keyed by `dayjs(data.date).day()`: integer-like
keys, which `Object.entries` enumerates in ascending numeric order; each
bucket holds its points in insertion order. -/
def weeklyBuckets (md : List MarketData) : List (Int × List MarketData) :=
  (List.range 7).filterMap fun dow =>
    let bucket := md.filter fun d => decide (d.date.dayOfWeek = (dow : Int))
    if bucket.isEmpty then none else some ((dow : Int), bucket)

/-- The body of the `Object.entries(weeklyData).forEach` loop of
`seasonalPatterns` (lines 84-113). -/
def weeklyStep (md : List MarketData) (patterns : List SeasonalPattern)
    (p : Int × List MarketData) : List SeasonalPattern :=
  let data := p.2
  if data.length < 3 then patterns
  else
    let avgChange := (data.map (·.priceChange)).sum / (data.length : ℚ)
    let avgVolume := (data.map (·.volume)).sum / (data.length : ℚ)
    let overallAvgVolume := (md.map (·.volume)).sum / (md.length : ℚ)
    let volumeRatio := avgVolume / overallAvgVolume
    let dayName := dayNames.getD p.1.toNat ""
    let patterns1 :=
      if 1.5 < |avgChange| then
        patterns ++
          [{ type := if 0 < avgChange then .bullish else .bearish
             period := dayName
             strength := min 100 (|avgChange| * 30)
             frequency := data.length }]
      else patterns
    if 1.3 < volumeRatio then
      patterns1 ++
        [{ type := .volatile
           period := dayName
           strength := min 100 (( volumeRatio - 1) * 100)
           frequency := data.length }]
    else patterns1

/-- The day-of-week pass of `seasonalPatterns`. -/
def weeklyPass (md : List MarketData) : List SeasonalPattern :=
  (weeklyBuckets md).foldl (weeklyStep md) []

/-- Insertion step of the stable descending sort by `strength`,
reproducing `patterns.sort((a, b) => b.strength - a.strength)` (JS `sort`
is stable; with this comparator it orders by strength descending, equal
strengths keeping source order). -/
def insertByStrengthDesc (p : SeasonalPattern) :
    List SeasonalPattern → List SeasonalPattern
  | [] => [p]
  | q :: qs =>
    if q.strength ≤ p.strength then p :: q :: qs
    else q :: insertByStrengthDesc p qs

def sortByStrengthDesc : List SeasonalPattern → List SeasonalPattern
  | [] => []
  | p :: ps => insertByStrengthDesc p (sortByStrengthDesc ps)

/-- The `seasonalPatterns` memo of `PatternAnalysis.tsx`: empty below 30
points, otherwise both passes pooled, sorted by strength descending, first
6 kept. -/
def seasonalPatterns (md : List MarketData) : List SeasonalPattern :=
  if md.length < 30 then []
  else (sortByStrengthDesc (monthlyPass md ++ weeklyPass md)).take 6

/-! ### `PatternAnalysis.tsx`: anomalies -/

inductive AnomalyType | volume_spike | volatility_spike | price_gap
deriving DecidableEq, Repr

inductive Severity | low | medium | high
deriving DecidableEq, Repr

/-- `Anomaly` of `PatternAnalysis.tsx`; the presentational `description`
string is not modelled. -/
structure Anomaly where
  date : Date
  type : AnomalyType
  severity : Severity
  value : ℚ
deriving DecidableEq, Repr

/-- `avgVolume` of the anomaly detector. -/
def avgVolume (md : List MarketData) : ℚ :=
  (md.map (·.volume)).sum / (md.length : ℚ)

/-- The population variance whose square root is `volumeStdDev`. -/
def volumeVariance (md : List MarketData) : ℚ :=
  (md.map fun d => (d.volume - avgVolume md) ^ 2).sum / (md.length : ℚ)

/-- `avgPriceChange` over `priceChanges = marketData.map(d => Math.abs(d.priceChange))`. -/
def avgAbsPC (md : List MarketData) : ℚ :=
  (md.map fun d => |d.priceChange|).sum / (md.length : ℚ)

/-- The population variance whose square root is `priceChangeStdDev`. -/
def absPCVariance (md : List MarketData) : ℚ :=
  (md.map fun d => (|d.priceChange| - avgAbsPC md) ^ 2).sum / (md.length : ℚ)

/-- Exact encoding of the JS comparison
`(v - avg) / Math.sqrt(var) > c` for a positive numeric constant `c`.
When `var > 0`: the inequality holds iff `v - avg > 0` and
`(v - avg)^2 > c^2 * var` (square both sides of `v - avg > c * sqrt var`).
When `var = 0` JS divides by zero: the quotient is `+Infinity` (compares
greater than `c`) iff `v - avg > 0`, and `NaN` (compares false) when
`v - avg = 0`. -/
def zScoreGt (v avg var c : ℚ) : Bool :=
  if var = 0 then decide (0 < v - avg)
  else decide (0 < v - avg) && decide (c ^ 2 * var < (v - avg) ^ 2)

/-- Exact encoding of the JS comparison `x > mean + k * Math.sqrt(var)` for
a positive numeric constant `k` (here `Math.sqrt 0 = 0`, no division
occurs). -/
def exceedsMeanPlusKSd (x mean var k : ℚ) : Bool :=
  if var = 0 then decide (mean < x)
  else decide (0 < x - mean) && decide (k ^ 2 * var < (x - mean) ^ 2)

/-- The volume-spike rule (lines 137-147): `volumeZScore > 2` flags the
point, severity `high` above 3, `medium` above 2.5, else `low`. -/
def volumeSpikeFor (md : List MarketData) (d : MarketData) : Option Anomaly :=
  let avg := avgVolume md
  let var := volumeVariance md
  if zScoreGt d.volume avg var 2 then
    some { date := d.date
           type := .volume_spike
           severity :=
             if zScoreGt d.volume avg var 3 then .high
             else if zScoreGt d.volume avg var 2.5 then .medium
             else .low
           value := d.volume }
  else none

/-- The volatility-spike rule (lines 149-158). -/
def volatilitySpikeFor (md : List MarketData) (d : MarketData) :
    Option Anomaly :=
  let mean := avgAbsPC md
  let var := absPCVariance md
  if d.volatilityLevel = .high ∧ exceedsMeanPlusKSd |d.priceChange| mean var 2 then
    some { date := d.date
           type := .volatility_spike
           severity :=
             if exceedsMeanPlusKSd |d.priceChange| mean var 3 then .high
             else .medium
           value := |d.priceChange| }
  else none

/-- The price-gap rule (lines 160-173), evaluated against the immediately
preceding point. -/
def priceGapFor (prev d : MarketData) : Option Anomaly :=
  let gap := |d.priceChange - prev.priceChange|
  if 5 < gap then
    some { date := d.date
           type := .price_gap
           severity := if 10 < gap then .high else if 7 < gap then .medium else .low
           value := gap }
  else none

/-- The `marketData.forEach` of the anomaly detector: per point, the volume
rule, then the volatility rule, then (for every point after the first) the
gap rule. -/
def anomalyScan (md : List MarketData) :
    Option MarketData → List MarketData → List Anomaly
  | _, [] => []
  | prev, d :: rest =>
    (volumeSpikeFor md d).toList ++ (volatilitySpikeFor md d).toList ++
      (match prev with
       | some p => (priceGapFor p d).toList
       | none => []) ++
      anomalyScan md (some d) rest

/-- Insertion step of the stable descending sort by date reproducing
`anomalies.sort((a, b) => dayjs(b.date).valueOf() - dayjs(a.date).valueOf())`. -/
def insertByDateDesc (a : Anomaly) : List Anomaly → List Anomaly
  | [] => [a]
  | b :: bs =>
    if b.date.toDays ≤ a.date.toDays then a :: b :: bs
    else b :: insertByDateDesc a bs

def sortByDateDesc : List Anomaly → List Anomaly
  | [] => []
  | a :: as' => insertByDateDesc a (sortByDateDesc as')

/-- The `anomalies` memo of `PatternAnalysis.tsx`: empty below 10 points,
otherwise all three rules over the series, sorted most recent first, first
10 kept. -/
def anomalies (md : List MarketData) : List Anomaly :=
  if md.length < 10 then []
  else (sortByDateDesc (anomalyScan md none md)).take 10


/-! ### Proof infrastructure (not part of the source embedding) -/

/-- Cumulative number of days of year strictly before month `m` (1-based),
for a common (`leap = false`) or leap year. -/
def cumDays (leap : Bool) (m : Int) : Int :=
  if m ≤ 1 then 0
  else if m = 2 then 31
  else
    (if leap then 60 else 59) +
      (if m = 3 then 0 else if m = 4 then 31 else if m = 5 then 61
       else if m = 6 then 92 else if m = 7 then 122 else if m = 8 then 153
       else if m = 9 then 184 else if m = 10 then 214 else if m = 11 then 245
       else 275)

/-- First-encounter deduplication, continuing from an accumulator: the
order in which a JS object visited its distinct string keys. -/
def dedupAux {α : Type} [DecidableEq α] (l : List α) (acc : List α) : List α :=
  l.foldl (fun acc k => if k ∈ acc then acc else acc ++ [k]) acc

/-- Distinct elements of `l` in order of first occurrence. -/
def dedupFE {α : Type} [DecidableEq α] (l : List α) : List α := dedupAux l []

/-- The grouping scheme shared by `weekGroups`, `monthGroups` and
`monthlyData`: fold the series, dropping points that fail `keep` and
pushing the rest onto the bucket of their key. -/
def groupsBy (key : MarketData → String) (keep : MarketData → Bool)
    (data : List MarketData) : List (String × List MarketData) :=
  data.foldl
    (fun gs item => if keep item then addToGroups gs (key item) item else gs)
    []

/-- The week unit-indices contributing to a target year, in order of first
occurrence. -/
def weekIndices (data : List MarketData) (year : Int) : List Int :=
  dedupFE ((data.filter fun d => decide (d.date.year = year)).map (·.date.week))

/-- The month unit-indices contributing to a target year, in order of first
occurrence. -/
def monthIndices (data : List MarketData) (year : Int) : List Int :=
  dedupFE ((data.filter fun d => decide (d.date.year = year)).map (·.date.month))

/-- The spec's override condition for C7, as the spec words it: the day is
in the last five days of its month, or the month opens a quarter.  This
follows the spec text, for comparison against the source's
`volatilityWeightsFor`. -/
def specLastFiveOrEarnings (dt : Date) : Prop :=
  daysInMonth dt.year dt.month - 5 < dt.day ∨
    dt.month = 1 ∨ dt.month = 4 ∨ dt.month = 7 ∨ dt.month = 10

instance (dt : Date) : Decidable (specLastFiveOrEarnings dt) := by
  unfold specLastFiveOrEarnings; infer_instance

/-- 2024-01-02, a Tuesday: a one-day weekday range for the generator. -/
def d0C2 : Date := ⟨2024, 1, 2⟩

/-- The key picked by the `getMostFrequent*` reduce, expressed over the
distinct-key list with an external count function (proof infrastructure;
related to `pickMostFrequent` by `pickMostFrequent_countsOf`). -/
def pickArg {κ : Type} (cnt : κ → Nat) (ks : List κ) : Option κ :=
  match ks with
  | [] => none
  | k :: kr => some (kr.foldl (fun a b => if cnt a > cnt b then a else b) k)

/-- A bucket of two same-month points whose volatility levels tie 1-1,
`low` encountered first. -/
def mdC1 : List MarketData :=
  [{ date := ⟨2024, 3, 5⟩, volatilityLevel := .low, volume := 1000,
     performance := .positive, priceChange := 1, liquidity := 50 },
   { date := ⟨2024, 3, 6⟩, volatilityLevel := .high, volume := 1200,
     performance := .negative, priceChange := -1, liquidity := 60 }]

/-- A bland weekday data point for size-threshold witnesses. -/
def samplePoint : MarketData :=
  { date := ⟨2024, 1, 2⟩, volatilityLevel := .low, volume := 1000,
    performance := .positive, priceChange := 0, liquidity := 50 }

/-- A point with a given date and volume, other fields bland. -/
def mkPt (y m dd : Int) (vol : ℚ) : MarketData :=
  { date := ⟨y, m, dd⟩, volatilityLevel := .low, volume := vol,
    performance := .positive, priceChange := 0, liquidity := 50 }

/-- Ten points whose volumes are `[104, 104, 99 × 8]`: mean 100, population
variance 4, standard deviation 2; the first point has volume z-score
exactly 2. -/
def mdC5a : List MarketData :=
  [mkPt 2024 1 1 104, mkPt 2024 1 2 104, mkPt 2024 1 3 99, mkPt 2024 1 4 99,
   mkPt 2024 1 5 99, mkPt 2024 1 8 99, mkPt 2024 1 9 99, mkPt 2024 1 10 99,
   mkPt 2024 1 11 99, mkPt 2024 1 12 99]

/-- Ten points with volume mean 50000 and population variance 404010000
(standard deviation 20100); the first point's volume 90401 sits at
z-score (90401 - 50000)/20100 = 2.01 exactly. -/
def mdC5b : List MarketData :=
  [mkPt 2024 1 1 90401, mkPt 2024 1 2 78868, mkPt 2024 1 3 12154,
   mkPt 2024 1 4 46120, mkPt 2024 1 5 44902, mkPt 2024 1 8 45946,
   mkPt 2024 1 9 45076, mkPt 2024 1 10 45511, mkPt 2024 1 11 45511,
   mkPt 2024 1 12 45511]

/-- Total volume held in a group structure (proof infrastructure). -/
def groupsTotal (gs : List (String × List MarketData)) : ℚ :=
  (gs.map fun p => (p.2.map (·.volume)).sum).sum

/-- A point with a given date and price change, other fields bland. -/
def mkPtPC (y m dd : Int) (pc : ℚ) : MarketData :=
  { date := ⟨y, m, dd⟩, volatilityLevel := .low, volume := 1000,
    performance := .positive, priceChange := pc, liquidity := 50 }

/-- Thirty valid points: three January points across two years with mean
price change 3, plus 27 quiet February points. -/
def mdC8w : List MarketData :=
  [mkPtPC 2023 1 10 3, mkPtPC 2024 1 10 4, mkPtPC 2024 1 11 2] ++
    (List.range 27).map fun k => mkPtPC 2024 2 ((k : Int) + 1) 0

/-- Thirty-three valid points: three January points across two years with
mean price change 3 (candidate strength 60), plus five points in each of
February..July with price change 5, producing six month patterns of
strength 100 that fill the top-6 cut. -/
def cexC8 : List MarketData :=
  [mkPtPC 2023 1 10 3, mkPtPC 2024 1 10 4, mkPtPC 2024 1 11 2] ++
    ((List.range 6).flatMap fun m =>
      (List.range 5).map fun k =>
        mkPtPC 2024 ((m : Int) + 2) ((k : Int) + 1) 5)

/-- Two valid 2024 points in ascending date order whose dayjs week numbers
are 23 (June 5) and 1 (December 29: its Sunday-started week runs into
January 2025, so the `weekOfYear` plugin reports week 1). -/
def cexC4 : List MarketData := [mkPt 2024 6 5 1000, mkPt 2024 12 29 1200]

/-! ## Calendar lemmas -/

theorem toDays_decomp (y m d : Int) (hm1 : 1 ≤ m) (hm2 : m ≤ 12) :
    daysFromCivil y m d = daysFromCivil y 1 1 + cumDays (isLeapYear y) m + d - 1 := by
  cases hLeap : isLeapYear y <;> simp [isLeapYear] at hLeap <;>
    interval_cases m <;>
      simp only [daysFromCivil, cumDays] <;> norm_num <;> omega

theorem daysInMonth_eq (y m : Int) :
    daysInMonth y m =
      (if m = 2 then (if isLeapYear y then 29 else 28)
       else if m = 4 ∨ m = 6 ∨ m = 9 ∨ m = 11 then 30 else 31) := rfl

theorem cumDays_step (y m m' : Int) (hm : 1 ≤ m) (hlt : m < m') (hm' : m' ≤ 12) :
    cumDays (isLeapYear y) m + daysInMonth y m ≤ cumDays (isLeapYear y) m' := by
  have hm'lo : 2 ≤ m' := by omega
  cases hLeap : isLeapYear y <;>
    interval_cases m' <;> interval_cases m <;>
      simp [cumDays, daysInMonth, hLeap]

theorem toDays_sub_jan1_bounds (dt : Date) (h : dt.Valid) :
    0 ≤ dt.toDays - daysFromCivil dt.year 1 1 ∧
      dt.toDays - daysFromCivil dt.year 1 1 ≤ 365 := by
  obtain ⟨hm1, hm2, hd1, hd2⟩ := h
  rw [show dt.toDays = daysFromCivil dt.year dt.month dt.day from rfl,
    toDays_decomp dt.year dt.month dt.day hm1 hm2]
  cases hLeap : isLeapYear dt.year <;>
    rw [daysInMonth_eq, hLeap] at hd2 <;>
      interval_cases hh : dt.month <;> simp_all [cumDays] <;> omega

theorem month_le_of_toDays_le (d1 d2 : Date) (h1 : d1.Valid) (h2 : d2.Valid)
    (hy : d1.year = d2.year) (hle : d1.toDays ≤ d2.toDays) :
    d1.month ≤ d2.month := by
  by_contra hgt
  push_neg at hgt
  obtain ⟨hm1, hm2, hd1, hd2⟩ := h1
  obtain ⟨hm1', hm2', hd1', hd2'⟩ := h2
  have hstep := cumDays_step d1.year d2.month d1.month hm1' hgt hm2
  rw [show d1.toDays = daysFromCivil d1.year d1.month d1.day from rfl,
    show d2.toDays = daysFromCivil d2.year d2.month d2.day from rfl,
    toDays_decomp d1.year d1.month d1.day hm1 hm2,
    toDays_decomp d2.year d2.month d2.day hm1' hm2', ← hy] at hle
  rw [← hy] at hd2'
  omega

theorem week_bounds (dt : Date) (h : dt.Valid) : 0 ≤ dt.week ∧ dt.week ≤ 53 := by
  have hb := toDays_sub_jan1_bounds dt h
  have hmod : 0 ≤ (daysFromCivil dt.year 1 1 + 4) % 7 ∧
      (daysFromCivil dt.year 1 1 + 4) % 7 < 7 := by omega
  simp only [Date.week, startOfWeekDays]
  split_ifs <;> omega

/-! ## C2: the generator loop never advances -/

theorem genStep_current (dr : Draws) (st : GenState) :
    (genStep dr st).current = st.current := by
  simp only [genStep]
  split <;> rfl

theorem genIter_current (ds : Nat → Draws) (startD : Date) (n : Nat) :
    (genIter ds startD n).current = startD := by
  induction n with
  | zero => rfl
  | succ n ih => rw [genIter, genStep_current, ih]

/-- C2: the claim says `generateMockMarketData` terminates in time
proportional to the range length.  It does not: the loop's final statement
`current.add(1, 'day')` discards the value dayjs returns (dayjs instances
are immutable), so `current` never changes and the `while` guard remains
true after every iteration.  On the one-weekday range
2024-01-02..2024-01-02 — where the claim promises a singleton series, and
the repository's own test `handles same start and end date` expects
`data.length` to be 1 — no number of iterations falsifies the guard, i.e.
the call never returns. -/
theorem C2_generator_never_terminates (ds : Nat → Draws) (n : Nat) :
    genGuard d0C2 (genIter ds d0C2 n) = true := by
  unfold genGuard
  rw [genIter_current]
  decide

/-! ## C7: the volatility-weight override condition -/

theorem weights_override_ne_baseline :
    ([0.2, 0.4, 0.4] : List ℚ) ≠ [0.5, 0.3, 0.2] := by
  simp only [ne_eq, List.cons.injEq, and_false, false_and, not_false_eq_true,
    List.cons.injEq]
  norm_num

/-- C7 (counterexample): on 2024-03-26 the code samples volatility with the
override weights {0.2, 0.4, 0.4} — `dayOfMonth > 25` holds — yet the day is
not in the last five days of March (which are the 27th–31st) and March is
not a quarter-opening month, so the claim's condition does not hold. -/
theorem C7_counterexample :
    volatilityWeightsFor ⟨2024, 3, 26⟩ = [0.2, 0.4, 0.4] ∧
      ¬ specLastFiveOrEarnings ⟨2024, 3, 26⟩ := by
  constructor
  · with_unfolding_all rfl
  · decide

/-- C7 (amended): the generator samples the day's volatility with the
override weights {low: 0.2, medium: 0.4, high: 0.4} exactly when the
day-of-month exceeds 25 or the day's month is one of the four
quarter-opening months (January, April, July, October), and with the
baseline weights {low: 0.5, medium: 0.3, high: 0.2} otherwise. -/
theorem C7_override_iff (dt : Date) :
    (volatilityWeightsFor dt = [0.2, 0.4, 0.4] ↔
      (25 < dt.day ∨ dt.month = 1 ∨ dt.month = 4 ∨ dt.month = 7 ∨ dt.month = 10)) ∧
    (volatilityWeightsFor dt = [0.5, 0.3, 0.2] ↔
      ¬ (25 < dt.day ∨ dt.month = 1 ∨ dt.month = 4 ∨ dt.month = 7 ∨ dt.month = 10)) := by
  simp only [volatilityWeightsFor]
  by_cases h : 25 < dt.day ∨ dt.month = 1 ∨ dt.month = 4 ∨ dt.month = 7 ∨ dt.month = 10
  · rw [if_pos h]
    exact ⟨iff_of_true rfl h,
      iff_of_false (fun hc => weights_override_ne_baseline hc) (not_not_intro h)⟩
  · rw [if_neg h]
    exact ⟨iff_of_false (fun hc => weights_override_ne_baseline hc.symm) h,
      iff_of_true rfl h⟩

/-! ## C10: the weighted sampler stays in its item list -/

theorem getLast?_mem_self {α : Type} {l : List α} {x : α}
    (h : l.getLast? = some x) : x ∈ l := by
  induction l with
  | nil => simp at h
  | cons a t ih =>
    cases t with
    | nil => simp at h; simp [h]
    | cons b t2 =>
      rw [List.getLast?_cons_cons] at h
      exact List.mem_cons_of_mem a (ih h)

theorem weightedRandomLoop_mem {α : Type} (items : List α) (ws : List ℚ)
    (r : Option ℚ) (x : α) (h : weightedRandomLoop items ws r = some x) :
    x ∈ items := by
  induction items generalizing ws r with
  | nil => simp [weightedRandomLoop] at h
  | cons a as ih =>
    rw [weightedRandomLoop] at h
    split at h
    · obtain rfl : a = x := Option.some.inj h
      exact List.mem_cons_self _ _
    · exact List.mem_cons_of_mem a (ih _ _ h)

/-- C10 (confirmed): for a non-empty item list, any weight list and any
random draw, `weightedRandom` returns an element of the item list: either
the loop stops inside the list, or the final fall-back returns the last
item.  A value outside the given category list is never produced. -/
theorem C10_weightedRandom_total {α : Type} (items : List α)
    (weights : List ℚ) (rand : ℚ) (h : items ≠ []) :
    ∃ x ∈ items, weightedRandom items weights rand = some x := by
  have hval : weightedRandom items weights rand =
      match weightedRandomLoop items weights
          (some (rand * weights.foldl (· + ·) 0)) with
      | some x => some x
      | none => items.getLast? := rfl
  rw [hval]
  cases hloop : weightedRandomLoop items weights
      (some (rand * weights.foldl (· + ·) 0)) with
  | some x => exact ⟨x, weightedRandomLoop_mem _ _ _ _ hloop, rfl⟩
  | none =>
    cases hlast : items.getLast? with
    | none => exact absurd (List.getLast?_eq_none_iff.mp hlast) h
    | some x => exact ⟨x, getLast?_mem_self hlast, rfl⟩

/-- C10 witness: a concrete run. -/
theorem C10_witness :
    ∃ x ∈ [0, 1], weightedRandom [0, 1] [0.5] (0.3 : ℚ) = some x :=
  C10_weightedRandom_total [0, 1] [0.5] 0.3 (by decide)

/-! ## List toolkit: first-encounter deduplication and grouping -/

theorem dedupAux_cons {α : Type} [DecidableEq α] (x : α) (l acc : List α) :
    dedupAux (x :: l) acc =
      dedupAux l (if x ∈ acc then acc else acc ++ [x]) := rfl

theorem dedupAux_append_one {α : Type} [DecidableEq α] (l acc : List α) (x : α) :
    dedupAux (l ++ [x]) acc =
      (if x ∈ dedupAux l acc then dedupAux l acc else dedupAux l acc ++ [x]) := by
  unfold dedupAux
  rw [List.foldl_append]
  rfl

theorem mem_dedupAux {α : Type} [DecidableEq α] {x : α} (l acc : List α) :
    x ∈ dedupAux l acc ↔ x ∈ l ∨ x ∈ acc := by
  induction l generalizing acc with
  | nil => simp [dedupAux]
  | cons a t ih =>
    rw [dedupAux_cons]
    by_cases hxa : a ∈ acc
    · rw [if_pos hxa, ih]
      constructor
      · rintro (h | h)
        · exact Or.inl (List.mem_cons_of_mem a h)
        · exact Or.inr h
      · rintro (h | h)
        · rcases List.mem_cons.mp h with rfl | h
          · exact Or.inr hxa
          · exact Or.inl h
        · exact Or.inr h
    · rw [if_neg hxa, ih]
      constructor
      · rintro (h | h)
        · exact Or.inl (List.mem_cons_of_mem a h)
        · rcases List.mem_append.mp h with h | h
          · exact Or.inr h
          · simp at h
            exact Or.inl (h ▸ List.mem_cons_self a t)
      · rintro (h | h)
        · rcases List.mem_cons.mp h with rfl | h
          · exact Or.inr (List.mem_append.mpr (Or.inr (List.mem_singleton.mpr rfl)))
          · exact Or.inl h
        · exact Or.inr (List.mem_append.mpr (Or.inl h))

theorem mem_dedupFE {α : Type} [DecidableEq α] {x : α} (l : List α) :
    x ∈ dedupFE l ↔ x ∈ l := by
  rw [dedupFE, mem_dedupAux]
  simp

theorem dedupAux_nodup {α : Type} [DecidableEq α] (l acc : List α)
    (h : acc.Nodup) : (dedupAux l acc).Nodup := by
  induction l generalizing acc with
  | nil => exact h
  | cons a t ih =>
    rw [dedupAux_cons]
    by_cases hxa : a ∈ acc
    · rw [if_pos hxa]; exact ih acc h
    · rw [if_neg hxa]
      refine ih _ ?_
      rw [List.nodup_append]
      exact ⟨h, List.nodup_singleton a, by simpa using hxa⟩

theorem dedupFE_nodup {α : Type} [DecidableEq α] (l : List α) :
    (dedupFE l).Nodup :=
  dedupAux_nodup l [] List.nodup_nil

theorem dedupFE_append_one {α : Type} [DecidableEq α] (l : List α) (x : α) :
    dedupFE (l ++ [x]) =
      (if x ∈ l then dedupFE l else dedupFE l ++ [x]) := by
  have h1 : dedupFE (l ++ [x]) =
      if x ∈ dedupFE l then dedupFE l else dedupFE l ++ [x] :=
    dedupAux_append_one l [] x
  rw [h1]
  by_cases h : x ∈ l
  · rw [if_pos ((mem_dedupFE l).mpr h), if_pos h]
  · rw [if_neg (fun hc => h ((mem_dedupFE l).mp hc)), if_neg h]

theorem countsOf_eq {κ : Type} [DecidableEq κ] (l : List κ) :
    countsOf l = (dedupFE l).map fun k => (k, l.count k) := by
  induction l using List.reverseRecOn with
  | nil => rfl
  | append_singleton l x ih =>
    have hstep : countsOf (l ++ [x]) = bumpCount (countsOf l) x := by
      unfold countsOf
      rw [List.foldl_append]
      rfl
    rw [hstep, ih, dedupFE_append_one]
    unfold bumpCount
    have hany : ((dedupFE l).map fun k => (k, l.count k)).any
        (fun p => decide (p.1 = x)) = true ↔ x ∈ l := by
      simp [List.any_eq_true, mem_dedupFE]
    by_cases hx : x ∈ l
    · rw [if_pos (hany.mpr hx), if_pos hx, List.map_map]
      refine List.map_congr_left fun k hk => ?_
      by_cases hkx : k = x
      · subst hkx
        simp [Function.comp, List.count_append]
      · simp [Function.comp, hkx, List.count_append, List.count_cons,
          List.count_nil]
    · rw [if_neg (fun h => hx (hany.mp h)), if_neg hx, List.map_append]
      congr 1
      · refine List.map_congr_left fun k hk => ?_
        have hkx : k ≠ x := fun hc => hx (hc ▸ (mem_dedupFE l).mp hk)
        simp [List.count_append, List.count_cons, List.count_nil, hkx]
      · have hcx : l.count x = 0 := List.count_eq_zero.mpr hx
        simp [List.count_append, hcx]

theorem foldl_pick_decomp {κ : Type} (cnt : κ → Nat) (e : κ) (ks : List κ) :
    ∃ l1 l2,
      e :: ks =
        l1 ++ (ks.foldl (fun a b => if cnt a > cnt b then a else b) e) :: l2 ∧
      (∀ w ∈ l1,
        cnt w ≤ cnt (ks.foldl (fun a b => if cnt a > cnt b then a else b) e)) ∧
      (∀ w ∈ l2,
        cnt w < cnt (ks.foldl (fun a b => if cnt a > cnt b then a else b) e)) := by
  induction ks using List.reverseRecOn with
  | nil => exact ⟨[], [], rfl, by simp, by simp⟩
  | append_singleton ks b ih =>
    obtain ⟨l1, l2, hdec, hle, hlt⟩ := ih
    rw [List.foldl_append]
    simp only [List.foldl_cons, List.foldl_nil]
    set p := ks.foldl (fun a b => if cnt a > cnt b then a else b) e with hp
    by_cases hc : cnt p > cnt b
    · rw [if_pos hc]
      refine ⟨l1, l2 ++ [b], ?_, hle, ?_⟩
      · rw [show e :: (ks ++ [b]) = (e :: ks) ++ [b] from rfl, hdec]
        simp
      · intro w hw
        rcases List.mem_append.mp hw with hw | hw
        · exact hlt w hw
        · simp at hw
          exact hw ▸ hc
    · rw [if_neg hc]
      push_neg at hc
      refine ⟨e :: ks, [], by simp, ?_, by simp⟩
      intro w hw
      have : cnt w ≤ cnt p := by
        rw [hdec] at hw
        rcases List.mem_append.mp hw with hw | hw
        · exact hle w hw
        · rcases List.mem_cons.mp hw with rfl | hw
          · exact le_refl _
          · exact le_of_lt (hlt w hw)
      exact le_trans this hc

theorem pickMostFrequent_countsOf {κ : Type} [DecidableEq κ] (l : List κ) :
    pickMostFrequent (countsOf l) = pickArg l.count (dedupFE l) := by
  rw [countsOf_eq]
  cases hks : dedupFE l with
  | nil => rfl
  | cons k kr =>
    unfold pickMostFrequent pickArg
    simp only [List.map_cons, Option.some.injEq]
    rw [List.foldl_map]
    have : ∀ (ks : List κ) (a : κ),
        ks.foldl
            (fun (p : κ × Nat) b =>
              if p.2 > (b, l.count b).2 then p else (b, l.count b))
            (a, l.count a) =
          (ks.foldl (fun a b => if l.count a > l.count b then a else b) a,
            l.count (ks.foldl (fun a b => if l.count a > l.count b then a else b) a)) := by
      intro ks
      induction ks with
      | nil => intro a; rfl
      | cons c cs ih =>
        intro a
        simp only [List.foldl_cons]
        by_cases hc : l.count a > l.count c
        · rw [if_pos hc, if_pos hc, ih]
        · rw [if_neg hc, if_neg hc, ih]
    rw [this]

/-! ## C1: the dominant-category tie-break -/

theorem mode_spec {κ : Type} [DecidableEq κ] (values : List κ)
    (h : values ≠ []) :
    ∃ v, pickMostFrequent (countsOf values) = some v ∧
      (∀ w, values.count w ≤ values.count v) ∧
      ∃ l1 l2, dedupFE values = l1 ++ v :: l2 ∧
        ∀ w ∈ l2, values.count w < values.count v := by
  have hne : dedupFE values ≠ [] := by
    cases values with
    | nil => exact absurd rfl h
    | cons a t =>
      intro hc
      have hm := (mem_dedupFE (x := a) (a :: t)).mpr (List.mem_cons_self a t)
      rw [hc] at hm
      simp at hm
  rw [pickMostFrequent_countsOf]
  cases hks : dedupFE values with
  | nil => exact absurd hks hne
  | cons k kr =>
    obtain ⟨l1, l2, hdec, hle, hlt⟩ := foldl_pick_decomp values.count k kr
    refine ⟨_, rfl, ?_, l1, l2, hdec, hlt⟩
    intro w
    by_cases hw : w ∈ values
    · have hw2 : w ∈ k :: kr := hks ▸ (mem_dedupFE values).mpr hw
      rw [hdec] at hw2
      rcases List.mem_append.mp hw2 with hw2 | hw2
      · exact hle w hw2
      · rcases List.mem_cons.mp hw2 with rfl | hw2
        · exact le_refl _
        · exact le_of_lt (hlt w hw2)
    · rw [List.count_eq_zero.mpr hw]
      exact Nat.zero_le _

/-- C1 (amended): for every non-empty bucket of daily records, the dominant
volatility and dominant performance are a categorical value of maximal
occurrence count in the bucket; when two or more values tie for the highest
count, the winner is the tied value whose first occurrence among the
bucket's contributing points comes LAST in insertion order (every distinct
value first-encountered after the winner has a strictly smaller count).
The original claim's first-encountered-wins reading is refuted by
`C1_counterexample`: the JS `reduce((a, b) => counts[a[0]] > counts[b[0]] ? a : b)`
keeps `b`, the later entry, on ties. -/
theorem C1_dominant_mode (bucket : List MarketData) (h : bucket ≠ []) :
    (∃ v, getMostFrequentVolatility bucket = some v ∧
      (∀ w, (bucket.map (·.volatilityLevel)).count w ≤
        (bucket.map (·.volatilityLevel)).count v) ∧
      ∃ l1 l2, dedupFE (bucket.map (·.volatilityLevel)) = l1 ++ v :: l2 ∧
        ∀ w ∈ l2, (bucket.map (·.volatilityLevel)).count w <
          (bucket.map (·.volatilityLevel)).count v) ∧
    (∃ v, getMostFrequentPerformance bucket = some v ∧
      (∀ w, (bucket.map (·.performance)).count w ≤
        (bucket.map (·.performance)).count v) ∧
      ∃ l1 l2, dedupFE (bucket.map (·.performance)) = l1 ++ v :: l2 ∧
        ∀ w ∈ l2, (bucket.map (·.performance)).count w <
          (bucket.map (·.performance)).count v) := by
  have hne1 : bucket.map (·.volatilityLevel) ≠ [] := by
    simpa using h
  have hne2 : bucket.map (·.performance) ≠ [] := by
    simpa using h
  exact ⟨mode_spec _ hne1, mode_spec _ hne2⟩

/-- C1 (counterexample): a month bucket holding volatilities `[low, high]`
— a 1-1 tie with `low` first-encountered — aggregates to dominant
volatility `high`, not the claimed first-encountered `low`. -/
theorem C1_counterexample :
    mdC1.map (·.volatilityLevel) = [.low, .high] ∧
    (mdC1.map (·.volatilityLevel)).count .low =
      (mdC1.map (·.volatilityLevel)).count .high ∧
    (aggregateDataByMonth mdC1 2024).map (·.avgVolatility) = [some .high] ∧
    VolatilityLevel.high ≠ VolatilityLevel.low := by
  refine ⟨rfl, rfl, ?_, by decide⟩
  with_unfolding_all rfl

/-- C1 witness: the amended statement at the concrete tied bucket. -/
theorem C1_witness :
    ∃ v, getMostFrequentVolatility mdC1 = some v ∧
      (∀ w, (mdC1.map (·.volatilityLevel)).count w ≤
        (mdC1.map (·.volatilityLevel)).count v) ∧
      ∃ l1 l2, dedupFE (mdC1.map (·.volatilityLevel)) = l1 ++ v :: l2 ∧
        ∀ w ∈ l2, (mdC1.map (·.volatilityLevel)).count w <
          (mdC1.map (·.volatilityLevel)).count v :=
  (C1_dominant_mode mdC1 (by decide)).1

/-! ## C9: emptiness and size thresholds -/

/-- C9 (confirmed): week aggregation, month aggregation, seasonal pattern
detection and anomaly detection all return an empty sequence on an empty
series; seasonal detection returns an empty sequence for every series of
fewer than 30 points, anomaly detection for every series of fewer than 10
points.  All four functions are total: no failure state exists. -/
theorem C9_emptiness :
    (∀ year : Int,
      aggregateDataByWeek [] year = [] ∧ aggregateDataByMonth [] year = []) ∧
    seasonalPatterns [] = [] ∧ anomalies [] = [] ∧
    (∀ md : List MarketData, md.length < 30 → seasonalPatterns md = []) ∧
    (∀ md : List MarketData, md.length < 10 → anomalies md = []) := by
  refine ⟨fun year => ⟨rfl, rfl⟩, rfl, rfl, ?_, ?_⟩
  · intro md h
    unfold seasonalPatterns
    rw [if_pos h]
  · intro md h
    unfold anomalies
    rw [if_pos h]

/-- C9 witness: a 29-point series yields no seasonal patterns, a 9-point
series no anomalies. -/
theorem C9_witness :
    seasonalPatterns (List.replicate 29 samplePoint) = [] ∧
    anomalies (List.replicate 9 samplePoint) = [] :=
  ⟨C9_emptiness.2.2.2.1 _ (by simp),
   C9_emptiness.2.2.2.2 _ (by simp)⟩

/-! ## Anomaly-detector lemmas for C5 and C6 -/

theorem mem_insertByDateDesc {a b : Anomaly} {l : List Anomaly}
    (h : b ∈ insertByDateDesc a l) : b = a ∨ b ∈ l := by
  induction l with
  | nil => simpa [insertByDateDesc] using h
  | cons c cs ih =>
    rw [insertByDateDesc] at h
    split at h
    · rcases List.mem_cons.mp h with rfl | h
      · exact Or.inl rfl
      · exact Or.inr h
    · rcases List.mem_cons.mp h with rfl | h
      · exact Or.inr (List.mem_cons_self _ _)
      · rcases ih h with h | h
        · exact Or.inl h
        · exact Or.inr (List.mem_cons_of_mem _ h)

theorem mem_sortByDateDesc {b : Anomaly} {l : List Anomaly}
    (h : b ∈ sortByDateDesc l) : b ∈ l := by
  induction l with
  | nil => simpa [sortByDateDesc] using h
  | cons c cs ih =>
    rw [sortByDateDesc] at h
    rcases mem_insertByDateDesc h with rfl | h
    · exact List.mem_cons_self _ _
    · exact List.mem_cons_of_mem _ (ih h)

theorem volatilitySpikeFor_type {md : List MarketData} {d : MarketData}
    {a : Anomaly} (h : volatilitySpikeFor md d = some a) :
    a.type = .volatility_spike := by
  simp only [volatilitySpikeFor] at h
  split at h
  · cases h; rfl
  · cases h

theorem priceGapFor_type {p d : MarketData} {a : Anomaly}
    (h : priceGapFor p d = some a) : a.type = .price_gap := by
  simp only [priceGapFor] at h
  split at h
  · cases h; rfl
  · cases h

theorem anomalyScan_volume_spike {md : List MarketData} {a : Anomaly}
    (ht : a.type = .volume_spike) :
    ∀ (prev : Option MarketData) (l : List MarketData),
      a ∈ anomalyScan md prev l → ∃ d ∈ l, volumeSpikeFor md d = some a := by
  intro prev l
  induction l generalizing prev with
  | nil => intro h; simp [anomalyScan] at h
  | cons d rest ih =>
    intro h
    have hnotvol : ∀ {o : MarketData}, volatilitySpikeFor md o = some a → False := by
      intro o ho
      have h2 := volatilitySpikeFor_type ho
      rw [ht] at h2
      cases h2
    have hnotgap : ∀ {p o : MarketData}, priceGapFor p o = some a → False := by
      intro p o ho
      have h2 := priceGapFor_type ho
      rw [ht] at h2
      cases h2
    cases prev with
    | none =>
      simp only [anomalyScan, List.mem_append, Option.mem_toList, Option.mem_def,
        List.mem_nil_iff, or_false, false_or] at h
      rcases h with (h | h) | h
      · exact ⟨d, List.mem_cons_self _ _, h⟩
      · exact absurd h fun hh => hnotvol hh
      · obtain ⟨e, he, hee⟩ := ih (some d) h
        exact ⟨e, List.mem_cons_of_mem _ he, hee⟩
    | some p =>
      simp only [anomalyScan, List.mem_append, Option.mem_toList,
        Option.mem_def] at h
      rcases h with ((h | h) | h) | h
      · exact ⟨d, List.mem_cons_self _ _, h⟩
      · exact absurd h fun hh => hnotvol hh
      · exact absurd h fun hh => hnotgap hh
      · obtain ⟨e, he, hee⟩ := ih (some d) h
        exact ⟨e, List.mem_cons_of_mem _ he, hee⟩

theorem avgVolume_const {md : List MarketData} {c : ℚ} (hne : md ≠ [])
    (hc : ∀ d ∈ md, d.volume = c) : avgVolume md = c := by
  unfold avgVolume
  have hsum : (md.map (·.volume)).sum = md.length * c := by
    have h1 : ∀ x ∈ md.map (·.volume), x = c := by simpa using hc
    rw [List.sum_eq_card_nsmul _ c h1]
    simp [nsmul_eq_mul]
  rw [hsum]
  have hlen : (md.length : ℚ) ≠ 0 := by
    simpa using List.length_pos.mpr hne |>.ne'
  field_simp

theorem volumeVariance_const {md : List MarketData} {c : ℚ} (hne : md ≠ [])
    (hc : ∀ d ∈ md, d.volume = c) : volumeVariance md = 0 := by
  unfold volumeVariance
  have hz : ∀ x ∈ md.map fun d => (d.volume - avgVolume md) ^ 2, x = 0 := by
    intro x hx
    obtain ⟨d, hd, rfl⟩ := List.mem_map.mp hx
    rw [hc d hd, avgVolume_const hne hc]
    ring
  rw [List.sum_eq_zero hz, zero_div]

/-- C6 (confirmed): on a series of at least 10 points with all volumes
equal — population standard deviation of volume zero — the anomaly detector
is total (the z-score division-by-zero is modelled exactly: `0/0` is JS
`NaN`, which triggers nothing) and emits no `volume_spike` anomaly. -/
theorem C6_zero_stddev_no_volume_spike (md : List MarketData) (c : ℚ)
    (hlen : 10 ≤ md.length) (hc : ∀ d ∈ md, d.volume = c) :
    ∀ a ∈ anomalies md, a.type ≠ .volume_spike := by
  intro a ha ht
  have hne : md ≠ [] := by
    intro hnil
    rw [hnil] at hlen
    simp at hlen
  unfold anomalies at ha
  rw [if_neg (by omega)] at ha
  have ha2 := mem_sortByDateDesc (List.mem_of_mem_take ha)
  obtain ⟨d, hd, hspike⟩ := anomalyScan_volume_spike ht none md ha2
  have hzero : zScoreGt d.volume (avgVolume md) (volumeVariance md) 2 = false := by
    unfold zScoreGt
    rw [if_pos (volumeVariance_const hne hc), hc d hd, avgVolume_const hne hc]
    simp
  simp only [volumeSpikeFor] at hspike
  rw [hzero] at hspike
  simp at hspike

/-- C6 witness: ten identical points produce no volume-spike anomaly. -/
theorem C6_witness :
    (anomalies (List.replicate 10 samplePoint)).all
      (fun a => decide (a.type ≠ AnomalyType.volume_spike)) = true := by
  rw [List.all_eq_true]
  intro a ha
  exact decide_eq_true (C6_zero_stddev_no_volume_spike _ 1000 (by simp)
    (fun d hd => by rw [List.eq_of_mem_replicate hd]; rfl) a ha)

/-! ## C5: volume z-score thresholds -/

theorem zScoreGt_eq (v avg var c sd z : ℚ) (hsd : 0 < sd)
    (hvar : sd ^ 2 = var) (hz : v - avg = z * sd) (hc : 0 < c) :
    zScoreGt v avg var c = decide (c < z) := by
  have hvarpos : 0 < var := hvar ▸ pow_pos hsd 2
  unfold zScoreGt
  rw [if_neg (ne_of_gt hvarpos)]
  by_cases h : c < z
  · have hzpos : 0 < z := lt_trans hc h
    have h1 : 0 < v - avg := by
      rw [hz]
      exact mul_pos hzpos hsd
    have h2 : c ^ 2 * var < (v - avg) ^ 2 := by
      rw [hz, ← hvar, mul_pow]
      have hsq : c ^ 2 < z ^ 2 := by nlinarith
      exact mul_lt_mul_of_pos_right hsq (pow_pos hsd 2)
    simp [h1, h2, h]
  · push_neg at h
    by_cases hz0 : 0 < z
    · have h2 : ¬ c ^ 2 * var < (v - avg) ^ 2 := by
        rw [hz, ← hvar, mul_pow]
        push_neg
        have hsq : z ^ 2 ≤ c ^ 2 := by nlinarith
        exact mul_le_mul_of_nonneg_right hsq (le_of_lt (pow_pos hsd 2))
      simp [h2, not_lt.mpr h]
    · push_neg at hz0
      have h1 : ¬ 0 < v - avg := by
        rw [hz]
        push_neg
        exact mul_nonpos_of_nonpos_of_nonneg hz0 (le_of_lt hsd)
      simp [h1, not_lt.mpr h]

/-- C5 (confirmed): with a positive volume standard deviation `sd`
(`sd^2` equals the population variance), a point sitting exactly at
z-score 2 is NOT flagged — the comparison is strict — while any point with
z-score `z > 2` is flagged as a `volume_spike` whose severity is `high`
for `z > 3`, `medium` for `z > 2.5` and `low` otherwise; in particular
z-score 2.01 is flagged `low` (see `C5_witness`). -/
theorem C5_volume_zscore_thresholds (md : List MarketData) (d : MarketData)
    (hd : d ∈ md) (hlen : 10 ≤ md.length) (sd : ℚ) (hsd : 0 < sd)
    (hvar : sd ^ 2 = volumeVariance md) :
    (d.volume - avgVolume md = 2 * sd → volumeSpikeFor md d = none) ∧
    (∀ z : ℚ, 2 < z → d.volume - avgVolume md = z * sd →
      volumeSpikeFor md d =
        some { date := d.date, type := .volume_spike,
               severity :=
                 if 3 < z then .high else if 2.5 < z then .medium else .low,
               value := d.volume }) := by
  constructor
  · intro hz
    have h := zScoreGt_eq d.volume (avgVolume md) (volumeVariance md) 2 sd 2
      hsd hvar hz (by norm_num)
    simp only [volumeSpikeFor]
    rw [h]
    simp
  · intro z hz2 hzeq
    have hgt2 := zScoreGt_eq d.volume (avgVolume md) (volumeVariance md) 2 sd z
      hsd hvar hzeq (by norm_num)
    have hgt3 := zScoreGt_eq d.volume (avgVolume md) (volumeVariance md) 3 sd z
      hsd hvar hzeq (by norm_num)
    have hgt25 := zScoreGt_eq d.volume (avgVolume md) (volumeVariance md) 2.5 sd z
      hsd hvar hzeq (by norm_num)
    simp only [volumeSpikeFor]
    rw [hgt2, hgt3, hgt25]
    simp [hz2]

/-- C5 witness: in `mdC5a` the first point's volume z-score is exactly 2
(mean 100, sd 2, volume 104) and it is not flagged; in `mdC5b` the first
point's volume z-score is exactly 2.01 (mean 50000, sd 20100, volume
90401) and it is flagged as a `volume_spike` of severity `low`. -/
theorem C5_witness :
    volumeSpikeFor mdC5a (mkPt 2024 1 1 104) = none ∧
    volumeSpikeFor mdC5b (mkPt 2024 1 1 90401) =
      some { date := ⟨2024, 1, 1⟩, type := .volume_spike, severity := .low,
             value := 90401 } := by
  constructor
  · exact (C5_volume_zscore_thresholds mdC5a _ (List.mem_cons_self _ _)
      (by decide) 2 (by norm_num) (by with_unfolding_all rfl)).1
      (by with_unfolding_all rfl)
  · have h := (C5_volume_zscore_thresholds mdC5b _ (List.mem_cons_self _ _)
      (by decide) 20100 (by norm_num) (by with_unfolding_all rfl)).2
      2.01 (by norm_num) (by with_unfolding_all rfl)
    rw [h, if_neg (by norm_num : ¬ (3 : ℚ) < 2.01),
      if_neg (by norm_num : ¬ (2.5 : ℚ) < 2.01)]
    rfl

/-! ## Grouping lemmas (shared by C3 and C4) -/

theorem monthGroups_eq (data : List MarketData) (year : Int) :
    monthGroups data year =
      groupsBy (fun d => mkMonthKey year d.date.month)
        (fun d => decide (d.date.year = year)) data := by
  unfold monthGroups groupsBy
  congr 1
  funext gs item
  by_cases h : item.date.year = year <;> simp [h]

theorem weekGroups_eq (data : List MarketData) (year : Int) :
    weekGroups data year =
      groupsBy (fun d => mkWeekKey year d.date.week)
        (fun d => decide (d.date.year = year)) data := by
  unfold weekGroups groupsBy
  congr 1
  funext gs item
  by_cases h : item.date.year = year <;> simp [h]

theorem monthlyData_eq (md : List MarketData) :
    monthlyData md =
      groupsBy (fun d => pad2 d.date.month) (fun _ => true) md := by
  unfold monthlyData groupsBy
  congr 1

theorem groupsBy_append_one (key : MarketData → String)
    (keep : MarketData → Bool) (data : List MarketData) (d : MarketData) :
    groupsBy key keep (data ++ [d]) =
      if keep d then addToGroups (groupsBy key keep data) (key d) d
      else groupsBy key keep data := by
  unfold groupsBy
  rw [List.foldl_append]
  simp only [List.foldl_cons, List.foldl_nil]

theorem addToGroups_keys (gs : List (String × List MarketData))
    (key : String) (item : MarketData) :
    (addToGroups gs key item).map (·.1) =
      if key ∈ gs.map (·.1) then gs.map (·.1) else gs.map (·.1) ++ [key] := by
  have hcond : ((gs.any fun p => decide (p.1 = key)) = true) ↔
      key ∈ gs.map (·.1) := by
    simp only [List.any_eq_true, decide_eq_true_eq, List.mem_map]
  unfold addToGroups
  by_cases h : key ∈ gs.map (·.1)
  · rw [if_pos (hcond.mpr h), if_pos h, List.map_map]
    refine List.map_congr_left fun p hp => ?_
    by_cases hpk : p.1 = key <;> simp [hpk]
  · rw [if_neg (fun hc => h (hcond.mp hc)), if_neg h, List.map_append]
    rfl

theorem groupsBy_keys (key : MarketData → String) (keep : MarketData → Bool)
    (data : List MarketData) :
    (groupsBy key keep data).map (·.1) =
      dedupFE ((data.filter keep).map key) := by
  induction data using List.reverseRecOn with
  | nil => rfl
  | append_singleton data d ih =>
    rw [groupsBy_append_one, List.filter_append]
    cases hk : keep d
    · simp only [List.filter_cons, hk, List.filter_nil, List.append_nil,
        Bool.false_eq_true, if_false]
      exact ih
    · simp only [List.filter_cons, hk, List.filter_nil, if_true,
        List.map_append, List.map_cons, List.map_nil]
      rw [addToGroups_keys, ih, dedupFE_append_one]
      by_cases hmem : key d ∈ (data.filter keep).map key
      · rw [if_pos ((mem_dedupFE _).mpr hmem), if_pos hmem]
      · rw [if_neg (fun hc => hmem ((mem_dedupFE _).mp hc)), if_neg hmem]

theorem groupsBy_keys_nodup (key : MarketData → String)
    (keep : MarketData → Bool) (data : List MarketData) :
    ((groupsBy key keep data).map (·.1)).Nodup := by
  rw [groupsBy_keys]
  exact dedupFE_nodup _

theorem mapBucketUpdate_total (k : String) (item : MarketData) :
    ∀ gs : List (String × List MarketData),
      (gs.map (·.1)).Nodup → k ∈ gs.map (·.1) →
      groupsTotal
          (gs.map fun p => if p.1 = k then (p.1, p.2 ++ [item]) else p) =
        groupsTotal gs + item.volume := by
  intro gs
  induction gs with
  | nil => intro _ hk; simp at hk
  | cons p rest ih =>
    intro hnodup hk
    rw [List.map_cons, List.nodup_cons] at hnodup
    by_cases hpk : p.1 = k
    · have hrest : (rest.map fun q =>
          if q.1 = k then (q.1, q.2 ++ [item]) else q) = rest := by
        have h2 : (rest.map fun q =>
            if q.1 = k then (q.1, q.2 ++ [item]) else q) = rest.map id :=
          List.map_congr_left fun q hq => by
            have hq1 : q.1 ≠ k := by
              intro hc
              apply hnodup.1
              rw [hpk, ← hc]
              exact List.mem_map.mpr ⟨q, hq, rfl⟩
            simp [hq1]
        rw [h2, List.map_id]
      rw [List.map_cons, if_pos hpk]
      unfold groupsTotal
      rw [List.map_cons, List.map_cons, hrest]
      simp only [List.sum_cons, List.map_append, List.sum_append,
        List.map_cons, List.map_nil, List.sum_nil]
      ring
    · rcases List.mem_cons.mp hk with hc | hk2
      · exact absurd hc.symm hpk
      · rw [List.map_cons, if_neg hpk]
        unfold groupsTotal
        rw [List.map_cons, List.map_cons, List.sum_cons, List.sum_cons]
        have := ih hnodup.2 hk2
        unfold groupsTotal at this
        rw [this]
        ring

theorem addToGroups_total (gs : List (String × List MarketData)) (k : String)
    (item : MarketData) (hnodup : (gs.map (·.1)).Nodup) :
    groupsTotal (addToGroups gs k item) = groupsTotal gs + item.volume := by
  have hcond : ((gs.any fun p => decide (p.1 = k)) = true) ↔
      k ∈ gs.map (·.1) := by
    simp only [List.any_eq_true, decide_eq_true_eq, List.mem_map]
  unfold addToGroups
  by_cases h : k ∈ gs.map (·.1)
  · rw [if_pos (hcond.mpr h)]
    exact mapBucketUpdate_total k item gs hnodup h
  · rw [if_neg (fun hc => h (hcond.mp hc))]
    unfold groupsTotal
    rw [List.map_append, List.sum_append]
    simp

theorem groupsBy_total (key : MarketData → String) (keep : MarketData → Bool)
    (data : List MarketData) :
    groupsTotal (groupsBy key keep data) =
      ((data.filter keep).map (·.volume)).sum := by
  induction data using List.reverseRecOn with
  | nil => rfl
  | append_singleton data d ih =>
    rw [groupsBy_append_one, List.filter_append]
    cases hk : keep d
    · simp only [List.filter_cons, hk, List.filter_nil, List.append_nil,
        Bool.false_eq_true, if_false]
      exact ih
    · simp only [List.filter_cons, hk, List.filter_nil, if_true,
        List.map_append, List.map_cons, List.map_nil, List.sum_append,
        List.sum_cons, List.sum_nil]
      rw [addToGroups_total _ _ _ (groupsBy_keys_nodup key keep data), ih]
      ring

/-! ## C3: monthly volume conservation -/

/-- C3 (confirmed): for every input series and target year, the sum of
`totalVolume` over the monthly `AggregatedData` records for that year
equals the sum of `volume` over the input points whose date falls in that
year: month grouping partitions the year's points and `totalVolume` is the
bucket's volume sum. -/
theorem C3_volume_conservation (data : List MarketData) (year : Int) :
    ((aggregateDataByMonth data year).map (·.totalVolume)).sum =
      ((data.filter fun d => decide (d.date.year = year)).map (·.volume)).sum := by
  unfold aggregateDataByMonth
  rw [monthGroups_eq]
  have hmap : ((groupsBy (fun d => mkMonthKey year d.date.month)
        (fun d => decide (d.date.year = year)) data).map mkAggregated).map
        (·.totalVolume) =
      (groupsBy (fun d => mkMonthKey year d.date.month)
        (fun d => decide (d.date.year = year)) data).map
        fun p => (p.2.map (·.volume)).sum := by
    rw [List.map_map]
    rfl
  rw [hmap]
  exact groupsBy_total _ _ data

/-! ## Bucket contents (shared by C4 and C8) -/

theorem addToGroups_condition (gs : List (String × List MarketData))
    (k : String) :
    ((gs.any fun p => decide (p.1 = k)) = true) ↔ k ∈ gs.map (·.1) := by
  simp only [List.any_eq_true, decide_eq_true_eq, List.mem_map]

theorem groupsBy_buckets (key : MarketData → String)
    (keep : MarketData → Bool) (data : List MarketData) :
    ∀ p ∈ groupsBy key keep data,
      p.2 = (data.filter keep).filter fun d => decide (key d = p.1) := by
  induction data using List.reverseRecOn with
  | nil => intro p hp; simp [groupsBy] at hp
  | append_singleton data d ih =>
    intro p hp
    rw [groupsBy_append_one] at hp
    rw [List.filter_append]
    cases hk : keep d
    · rw [hk] at hp
      simp only [Bool.false_eq_true, if_false] at hp
      simp only [List.filter_cons, hk, Bool.false_eq_true, if_false,
        List.filter_nil, List.append_nil]
      exact ih p hp
    · rw [hk, if_pos rfl] at hp
      simp only [List.filter_cons, hk, if_true, List.filter_nil]
      unfold addToGroups at hp
      by_cases hcond : key d ∈ (groupsBy key keep data).map (·.1)
      · rw [if_pos ((addToGroups_condition _ _).mpr hcond)] at hp
        obtain ⟨q, hq, rfl⟩ := List.mem_map.mp hp
        by_cases hqk : q.1 = key d
        · rw [if_pos hqk]
          rw [ih q hq]
          have hkey : (decide (key d = q.1)) = true := decide_eq_true hqk.symm
          simp [List.filter_cons, hkey]
        · rw [if_neg hqk]
          rw [ih q hq]
          have hkey : (decide (key d = q.1)) = false :=
            decide_eq_false fun hc => hqk hc.symm
          simp [List.filter_cons, hkey]
      · rw [if_neg fun hc => hcond ((addToGroups_condition _ _).mp hc)] at hp
        rcases List.mem_append.mp hp with hp | hp
        · have hp1 : p.1 ∈ (groupsBy key keep data).map (·.1) :=
            List.mem_map.mpr ⟨p, hp, rfl⟩
          have hne : (decide (key d = p.1)) = false :=
            decide_eq_false fun hc => hcond (by rw [hc]; exact hp1)
          rw [ih p hp]
          simp [List.filter_cons, hne]
        · have hp2 : p = (key d, [d]) := by simpa using hp
          subst hp2
          have hnone : (data.filter keep).filter
              (fun e => decide (key e = key d)) = [] := by
            rw [List.filter_eq_nil_iff]
            intro e he hc
            apply hcond
            rw [groupsBy_keys]
            refine (mem_dedupFE _).mpr ?_
            rw [show key d = key e from (of_decide_eq_true hc).symm]
            exact List.mem_map.mpr ⟨e, he, rfl⟩
          have hkey : (decide (key d = key d)) = true := decide_eq_true rfl
          simp [List.filter_cons, hkey, hnone]

/-! ## C8: the January bullish pattern -/

theorem pad2_eq_01_iff (m : Int) (h1 : 1 ≤ m) (h2 : m ≤ 12) :
    pad2 m = "01" ↔ m = 1 := by
  interval_cases m <;> decide

theorem foldl_mono_of_step {β γ : Type} (step : List γ → β → List γ)
    (hstep : ∀ acc b, ∀ x ∈ acc, x ∈ step acc b) :
    ∀ (l : List β) (acc : List γ), ∀ x ∈ acc, x ∈ l.foldl step acc := by
  intro l
  induction l with
  | nil => intro acc x hx; exact hx
  | cons b rest ih =>
    intro acc x hx
    exact ih _ x (hstep acc b x hx)

theorem mem_foldl_of_entry {β γ : Type} (step : List γ → β → List γ)
    (hstep : ∀ acc b, ∀ x ∈ acc, x ∈ step acc b)
    (l : List β) (b : β) (hb : b ∈ l) (x : γ)
    (hx : ∀ acc, x ∈ step acc b) :
    ∀ acc, x ∈ l.foldl step acc := by
  induction l with
  | nil => simp at hb
  | cons c rest ih =>
    intro acc
    rcases List.mem_cons.mp hb with rfl | hb2
    · rw [List.foldl_cons]
      exact foldl_mono_of_step step hstep rest _ x (hx acc)
    · rw [List.foldl_cons]
      exact ih hb2 (step acc c)

theorem monthlyStep_mono (acc : List SeasonalPattern)
    (p : String × List MarketData) (x : SeasonalPattern) (hx : x ∈ acc) :
    x ∈ monthlyStep acc p := by
  simp only [monthlyStep]
  split_ifs <;> simp [hx]

theorem monthlyData_january (md : List MarketData)
    (hval : ∀ d ∈ md, d.date.Valid)
    (hne : (md.filter fun d => decide (d.date.month = 1)) ≠ []) :
    ("01", md.filter fun d => decide (d.date.month = 1)) ∈ monthlyData md := by
  rw [monthlyData_eq]
  have hk : "01" ∈ (groupsBy (fun d => pad2 d.date.month)
      (fun _ => true) md).map (·.1) := by
    rw [groupsBy_keys]
    refine (mem_dedupFE _).mpr ?_
    rw [List.filter_true]
    obtain ⟨e, he⟩ := List.exists_mem_of_ne_nil _ hne
    have he2 := List.mem_filter.mp he
    have hm : e.date.month = 1 := of_decide_eq_true he2.2
    refine List.mem_map.mpr ⟨e, he2.1, ?_⟩
    rw [hm]
    rfl
  obtain ⟨p, hp, hp1⟩ := List.mem_map.mp hk
  have hbucket := groupsBy_buckets _ _ md p hp
  rw [List.filter_true, hp1] at hbucket
  have hfeq : (md.filter fun e => decide (pad2 e.date.month = "01")) =
      md.filter fun d => decide (d.date.month = 1) :=
    List.filter_congr fun e he => by
      have hv := hval e he
      by_cases hm : e.date.month = 1
      · rw [decide_eq_true ((pad2_eq_01_iff _ hv.1 hv.2.1).mpr hm),
          decide_eq_true hm]
      · rw [decide_eq_false (fun hc => hm ((pad2_eq_01_iff _ hv.1 hv.2.1).mp hc)),
          decide_eq_false hm]
  rw [hfeq] at hbucket
  have hpe : p = ("01", md.filter fun d => decide (d.date.month = 1)) := by
    obtain ⟨p1, p2⟩ := p
    simp only at hp1 hbucket
    rw [hp1, hbucket]
  rw [← hpe]
  exact hp

/-- C8 (amended): a series of at least 30 valid-dated points with at least
3 January points (across any years) of mean priceChange exactly 3.0 makes
the month-of-year pass emit into the candidate pool a bullish pattern whose
period label is "Month 01" — not "January"; no emitted label is ever a
month name — with strength min(100, 3.0·20) = 60; the component's output
is that candidate pool pooled with the weekday pass, sorted by strength
descending and truncated to the first 6, so the January pattern appears in
the output only when it ranks in the top 6 (`C8_counterexample` shows it
pushed out entirely). -/
theorem C8_monthly_january_bullish (md : List MarketData)
    (hval : ∀ d ∈ md, d.date.Valid) (hlen : 30 ≤ md.length)
    (hjan3 : 3 ≤ (md.filter fun d => decide (d.date.month = 1)).length)
    (hmean : ((md.filter fun d => decide (d.date.month = 1)).map
        (·.priceChange)).sum /
        (((md.filter fun d => decide (d.date.month = 1)).length : ℚ)) = 3)
    (hyears : ∃ a ∈ md.filter fun d => decide (d.date.month = 1),
      ∃ b ∈ md.filter fun d => decide (d.date.month = 1),
        a.date.year ≠ b.date.year) :
    ({ type := .bullish, period := "Month 01", strength := 60,
       frequency := (md.filter fun d => decide (d.date.month = 1)).length } :
        SeasonalPattern) ∈ monthlyPass md ∧
    seasonalPatterns md =
      (sortByStrengthDesc (monthlyPass md ++ weeklyPass md)).take 6 := by
  constructor
  · have hne : (md.filter fun d => decide (d.date.month = 1)) ≠ [] := by
      intro hc
      rw [hc] at hjan3
      simp at hjan3
    have hentry := monthlyData_january md hval hne
    unfold monthlyPass
    refine mem_foldl_of_entry monthlyStep monthlyStep_mono (monthlyData md)
      _ hentry _ (fun acc => ?_) []
    simp only [monthlyStep]
    rw [if_neg (by omega : ¬ (md.filter fun d =>
      decide (d.date.month = 1)).length < 3)]
    rw [hmean]
    rw [show |(3 : ℚ)| = 3 from abs_of_pos (by norm_num)]
    rw [if_pos (by norm_num : (2 : ℚ) < 3)]
    rw [if_pos (by norm_num : (0 : ℚ) < 3)]
    rw [show min (100 : ℚ) (3 * 20) = 60 from by norm_num]
    split
    · refine List.mem_append.mpr (Or.inl (List.mem_append.mpr (Or.inr ?_)))
      exact List.mem_singleton.mpr rfl
    · refine List.mem_append.mpr (Or.inr ?_)
      exact List.mem_singleton.mpr rfl
  · unfold seasonalPatterns
    rw [if_neg (by omega)]

/-- C8 witness: the amended statement at a concrete 30-point series with
three January points (2023 and 2024) of mean price change 3. -/
theorem C8_witness :
    ({ type := .bullish, period := "Month 01", strength := 60,
       frequency :=
         (mdC8w.filter fun d => decide (d.date.month = 1)).length } :
        SeasonalPattern) ∈ monthlyPass mdC8w ∧
    seasonalPatterns mdC8w =
      (sortByStrengthDesc (monthlyPass mdC8w ++ weeklyPass mdC8w)).take 6 :=
  C8_monthly_january_bullish mdC8w (by decide) (by decide) (by decide)
    (by with_unfolding_all rfl)
    ⟨mkPtPC 2023 1 10 3, by decide, mkPtPC 2024 1 10 4, by decide, by decide⟩

set_option maxRecDepth 100000 in
/-- C8 (counterexample): `cexC8` satisfies every hypothesis of the claim —
33 points, three January points over two years with mean priceChange 3.0 —
yet the component's returned pattern list contains no pattern labelled
"January" and none of strength 60 at all: the emitted label is "Month 01",
and six stronger month patterns (strength 100) fill the top-6 cut, so the
January pattern is truncated away. -/
theorem C8_counterexample :
    30 ≤ cexC8.length ∧
    3 ≤ (cexC8.filter fun d => decide (d.date.month = 1)).length ∧
    (∃ a ∈ cexC8.filter fun d => decide (d.date.month = 1),
      ∃ b ∈ cexC8.filter fun d => decide (d.date.month = 1),
        a.date.year ≠ b.date.year) ∧
    ((cexC8.filter fun d => decide (d.date.month = 1)).map
        (·.priceChange)).sum /
        (((cexC8.filter fun d => decide (d.date.month = 1)).length : ℚ)) = 3 ∧
    (seasonalPatterns cexC8).all
      (fun p => decide (p.period ≠ "January") && decide (p.strength ≠ 60)) =
      true := by
  refine ⟨by decide, by decide, ?_, by with_unfolding_all rfl,
    by with_unfolding_all rfl⟩
  exact ⟨mkPtPC 2023 1 10 3, by decide, mkPtPC 2024 1 10 4, by decide,
    by decide⟩

/-! ## C4: key-encoding injectivity and ordered deduplication -/

theorem string_append_left_cancel {s t u : String} (h : s ++ t = s ++ u) :
    t = u := by
  have hd := congrArg String.data h
  simp only [String.data_append] at hd
  have hd2 := List.append_cancel_left hd
  cases t
  cases u
  simp only at hd2
  rw [hd2]

theorem pad2_inj12 (m1 m2 : Int) (h1 : 1 ≤ m1) (h2 : m1 ≤ 12)
    (h3 : 1 ≤ m2) (h4 : m2 ≤ 12) : pad2 m1 = pad2 m2 → m1 = m2 := by
  interval_cases m1 <;> interval_cases m2 <;> decide

theorem mkMonthKey_inj (year m1 m2 : Int) (h1 : 1 ≤ m1) (h2 : m1 ≤ 12)
    (h3 : 1 ≤ m2) (h4 : m2 ≤ 12)
    (h : mkMonthKey year m1 = mkMonthKey year m2) : m1 = m2 := by
  unfold mkMonthKey at h
  exact pad2_inj12 m1 m2 h1 h2 h3 h4 (string_append_left_cancel h)

theorem natRepr_inj54 :
    ∀ a ∈ List.range 54, ∀ b ∈ List.range 54,
      Nat.repr a = Nat.repr b → a = b := by decide

theorem int_toString_eq_natRepr (a : Int) (ha : 0 ≤ a) :
    toString a = Nat.repr a.toNat := by
  cases a with
  | ofNat n => rfl
  | negSucc n => exact absurd ha (Int.negSucc_lt_zero n).not_le

theorem int_toString_inj54 (a b : Int) (ha : 0 ≤ a) (ha2 : a ≤ 53)
    (hb : 0 ≤ b) (hb2 : b ≤ 53) (h : toString a = toString b) : a = b := by
  rw [int_toString_eq_natRepr a ha, int_toString_eq_natRepr b hb] at h
  have := natRepr_inj54 a.toNat (List.mem_range.mpr (by omega)) b.toNat
    (List.mem_range.mpr (by omega)) h
  omega

theorem mkWeekKey_inj (year a b : Int) (ha : 0 ≤ a) (ha2 : a ≤ 53)
    (hb : 0 ≤ b) (hb2 : b ≤ 53)
    (h : mkWeekKey year a = mkWeekKey year b) : a = b := by
  unfold mkWeekKey at h
  exact int_toString_inj54 a b ha ha2 hb hb2 (string_append_left_cancel h)

theorem dedupFE_map {α β : Type} [DecidableEq α] [DecidableEq β]
    (f : α → β) (l : List α)
    (hf : ∀ x ∈ l, ∀ y ∈ l, f x = f y → x = y) :
    dedupFE (l.map f) = (dedupFE l).map f := by
  induction l using List.reverseRecOn with
  | nil => rfl
  | append_singleton l x ih =>
    have hf' : ∀ a ∈ l, ∀ b ∈ l, f a = f b → a = b := fun a ha b hb =>
      hf a (List.mem_append_left _ ha) b (List.mem_append_left _ hb)
    rw [List.map_append, List.map_cons, List.map_nil, dedupFE_append_one,
      dedupFE_append_one, ih hf']
    by_cases hx : x ∈ l
    · rw [if_pos hx, if_pos (List.mem_map.mpr ⟨x, hx, rfl⟩)]
    · rw [if_neg hx, if_neg ?_, List.map_append]
      · rfl
      · intro hc
        obtain ⟨y, hy, hyx⟩ := List.mem_map.mp hc
        exact hx (hf y (List.mem_append_left _ hy) x
          (List.mem_append_right _ (List.mem_singleton.mpr rfl)) hyx ▸ hy)

theorem dedupAux_chain_lt (l acc : List Int) (hacc : acc.Chain' (· < ·))
    (hl : l.Pairwise (· ≤ ·)) (hcross : ∀ a ∈ acc, ∀ x ∈ l, a ≤ x) :
    (dedupAux l acc).Chain' (· < ·) := by
  induction l generalizing acc with
  | nil => exact hacc
  | cons x xs ih =>
    rw [dedupAux_cons]
    rcases List.pairwise_cons.mp hl with ⟨hx, hxs⟩
    by_cases hmem : x ∈ acc
    · rw [if_pos hmem]
      exact ih _ hacc hxs fun a ha y hy =>
        hcross a ha y (List.mem_cons_of_mem _ hy)
    · rw [if_neg hmem]
      refine ih _ ?_ hxs ?_
      · rw [List.chain'_append]
        refine ⟨hacc, List.chain'_singleton x, ?_⟩
        intro a ha b hb
        have ha2 : a ∈ acc := getLast?_mem_self ha
        have hb2 : x = b := by simpa using hb
        obtain rfl := hb2
        have hle := hcross a ha2 x (List.mem_cons_self _ _)
        have hne : a ≠ x := fun hc => hmem (hc ▸ ha2)
        omega
      · intro a ha y hy
        rcases List.mem_append.mp ha with ha | ha
        · exact hcross a ha y (List.mem_cons_of_mem _ hy)
        · have hax : a = x := by simpa using ha
          obtain rfl := hax.symm
          exact hx y hy

theorem dedupFE_chain_lt (l : List Int) (hl : l.Pairwise (· ≤ ·)) :
    (dedupFE l).Chain' (· < ·) :=
  dedupAux_chain_lt l [] List.chain'_nil hl (by simp)

theorem aggregateByMonth_periods (data : List MarketData) (year : Int) :
    (aggregateDataByMonth data year).map (·.period) =
      (monthGroups data year).map (·.1) := by
  unfold aggregateDataByMonth
  rw [List.map_map]
  rfl

theorem aggregateByWeek_periods (data : List MarketData) (year : Int) :
    (aggregateDataByWeek data year).map (·.period) =
      (weekGroups data year).map (·.1) := by
  unfold aggregateDataByWeek
  rw [List.map_map]
  rfl

theorem monthKeys_eq (data : List MarketData) (year : Int)
    (hval : ∀ d ∈ data, d.date.Valid) :
    (monthGroups data year).map (·.1) =
      (monthIndices data year).map (mkMonthKey year) := by
  rw [monthGroups_eq, groupsBy_keys]
  unfold monthIndices
  have hmm : ((data.filter fun d => decide (d.date.year = year)).map
      fun d => mkMonthKey year d.date.month) =
      ((data.filter fun d => decide (d.date.year = year)).map
        (·.date.month)).map (mkMonthKey year) := by
    rw [List.map_map]
    rfl
  rw [hmm, dedupFE_map]
  intro x hx y hy hxy
  obtain ⟨dx, hdx, rfl⟩ := List.mem_map.mp hx
  obtain ⟨dy, hdy, rfl⟩ := List.mem_map.mp hy
  have hvx := hval dx (List.mem_of_mem_filter hdx)
  have hvy := hval dy (List.mem_of_mem_filter hdy)
  exact mkMonthKey_inj year _ _ hvx.1 hvx.2.1 hvy.1 hvy.2.1 hxy

theorem weekKeys_eq (data : List MarketData) (year : Int)
    (hval : ∀ d ∈ data, d.date.Valid) :
    (weekGroups data year).map (·.1) =
      (weekIndices data year).map (mkWeekKey year) := by
  rw [weekGroups_eq, groupsBy_keys]
  unfold weekIndices
  have hmm : ((data.filter fun d => decide (d.date.year = year)).map
      fun d => mkWeekKey year d.date.week) =
      ((data.filter fun d => decide (d.date.year = year)).map
        (·.date.week)).map (mkWeekKey year) := by
    rw [List.map_map]
    rfl
  rw [hmm, dedupFE_map]
  intro x hx y hy hxy
  obtain ⟨dx, hdx, rfl⟩ := List.mem_map.mp hx
  obtain ⟨dy, hdy, rfl⟩ := List.mem_map.mp hy
  have hbx := week_bounds dx.date (hval dx (List.mem_of_mem_filter hdx))
  have hby := week_bounds dy.date (hval dy (List.mem_of_mem_filter hdy))
  exact mkWeekKey_inj year _ _ hbx.1 hbx.2 hby.1 hby.2 hxy

theorem monthIndices_chain (data : List MarketData) (year : Int)
    (hval : ∀ d ∈ data, d.date.Valid)
    (hsort : data.Chain' fun a b => a.date.toDays ≤ b.date.toDays) :
    (monthIndices data year).Chain' (· < ·) := by
  unfold monthIndices
  apply dedupFE_chain_lt
  rw [List.pairwise_map]
  have hc : (data.map fun d : MarketData => d.date.toDays).Chain' (· ≤ ·) :=
    (List.chain'_map _).mpr hsort
  have hpw : data.Pairwise fun a b => a.date.toDays ≤ b.date.toDays :=
    (List.pairwise_map).mp (List.chain'_iff_pairwise.mp hc)
  have hpf := hpw.filter (fun d => decide (d.date.year = year))
  refine List.Pairwise.imp_of_mem ?_ hpf
  intro a b ha hb hab
  have hya : a.date.year = year := of_decide_eq_true (List.mem_filter.mp ha).2
  have hyb : b.date.year = year := of_decide_eq_true (List.mem_filter.mp hb).2
  exact month_le_of_toDays_le a.date b.date
    (hval a (List.mem_of_mem_filter ha)) (hval b (List.mem_of_mem_filter hb))
    (by rw [hya, hyb]) hab

theorem monthIndices_mem (data : List MarketData) (year m : Int) :
    m ∈ monthIndices data year ↔
      ∃ d ∈ data, d.date.year = year ∧ d.date.month = m := by
  unfold monthIndices
  rw [mem_dedupFE, List.mem_map]
  constructor
  · rintro ⟨d, hd, rfl⟩
    have h2 := List.mem_filter.mp hd
    exact ⟨d, h2.1, of_decide_eq_true h2.2, rfl⟩
  · rintro ⟨d, hd, hy, rfl⟩
    exact ⟨d, List.mem_filter.mpr ⟨hd, decide_eq_true hy⟩, rfl⟩

theorem weekIndices_mem (data : List MarketData) (year w : Int) :
    w ∈ weekIndices data year ↔
      ∃ d ∈ data, d.date.year = year ∧ d.date.week = w := by
  unfold weekIndices
  rw [mem_dedupFE, List.mem_map]
  constructor
  · rintro ⟨d, hd, rfl⟩
    have h2 := List.mem_filter.mp hd
    exact ⟨d, h2.1, of_decide_eq_true h2.2, rfl⟩
  · rintro ⟨d, hd, hy, rfl⟩
    exact ⟨d, List.mem_filter.mpr ⟨hd, decide_eq_true hy⟩, rfl⟩

/-- C4 (amended): for an ascending series of valid dates and a target
year, both aggregators return exactly one `AggregatedData` per unit-index
having at least one contributing point in that year (the period-key lists
are duplicate-free images of the duplicate-free unit-index lists, whose
membership is exactly "some point of the target year carries this index").
Month mode is ordered by unit-index ascending.  Week mode is ordered by
FIRST OCCURRENCE of each week index in the input — `weekIndices` — which
the original claim wrongly strengthens to "ascending": the dayjs
`weekOfYear` wrap maps late-December dates to week 1, so an ascending
input can yield periods `[year-W23, year-W1]` (see `C4_counterexample`). -/
theorem C4_unit_index_structure (data : List MarketData) (year : Int)
    (hval : ∀ d ∈ data, d.date.Valid)
    (hsort : data.Chain' fun a b => a.date.toDays ≤ b.date.toDays) :
    ((aggregateDataByMonth data year).map (·.period) =
      (monthIndices data year).map (mkMonthKey year)) ∧
    (monthIndices data year).Nodup ∧
    (monthIndices data year).Chain' (· < ·) ∧
    (∀ m : Int, m ∈ monthIndices data year ↔
      ∃ d ∈ data, d.date.year = year ∧ d.date.month = m) ∧
    ((aggregateDataByWeek data year).map (·.period) =
      (weekIndices data year).map (mkWeekKey year)) ∧
    (weekIndices data year).Nodup ∧
    (∀ w : Int, w ∈ weekIndices data year ↔
      ∃ d ∈ data, d.date.year = year ∧ d.date.week = w) := by
  refine ⟨?_, dedupFE_nodup _, monthIndices_chain data year hval hsort,
    fun m => monthIndices_mem data year m, ?_, dedupFE_nodup _,
    fun w => weekIndices_mem data year w⟩
  · rw [aggregateByMonth_periods, monthKeys_eq data year hval]
  · rw [aggregateByWeek_periods, weekKeys_eq data year hval]

/-- C4 (counterexample): a two-point ascending, valid 2024 series dated
June 5 and December 29 aggregates by week into periods
`["2024-W23", "2024-W1"]` — unit-indices `[23, 1]`, not ascending: the
December 29 week wraps into 2025 and is numbered 1. -/
theorem C4_counterexample :
    (∀ d ∈ cexC4, d.date.Valid) ∧
    cexC4.Chain' (fun a b => a.date.toDays ≤ b.date.toDays) ∧
    (aggregateDataByWeek cexC4 2024).map (·.period) =
      ["2024-W23", "2024-W1"] ∧
    cexC4.map (fun d => d.date.week) = [23, 1] ∧
    ¬ (23 : Int) < 1 := by
  refine ⟨by decide, List.chain'_cons.mpr ⟨by decide, List.chain'_singleton _⟩,
    ?_, by decide, by decide⟩
  with_unfolding_all rfl

/-- C4 witness: the amended statement at the concrete two-point March
series. -/
theorem C4_witness :
    ((aggregateDataByMonth mdC1 2024).map (·.period) =
      (monthIndices mdC1 2024).map (mkMonthKey 2024)) ∧
    (monthIndices mdC1 2024).Nodup ∧
    (monthIndices mdC1 2024).Chain' (· < ·) ∧
    (∀ m : Int, m ∈ monthIndices mdC1 2024 ↔
      ∃ d ∈ mdC1, d.date.year = 2024 ∧ d.date.month = m) ∧
    ((aggregateDataByWeek mdC1 2024).map (·.period) =
      (weekIndices mdC1 2024).map (mkWeekKey 2024)) ∧
    (weekIndices mdC1 2024).Nodup ∧
    (∀ w : Int, w ∈ weekIndices mdC1 2024 ↔
      ∃ d ∈ mdC1, d.date.year = 2024 ∧ d.date.week = w) :=
  C4_unit_index_structure mdC1 2024 (by decide)
    (List.chain'_cons.mpr ⟨by decide, List.chain'_singleton _⟩)
